import Mathlib

/-!
Verification development for the `local-coder` repository.

The definitions below are a shallow embedding of the turn-execution engine of
the repository: the delta accumulator, the text fallback tool-call extractor,
the tool dispatcher, the single-mode and dual-mode turn loops of both the web
server (`src/server.ts`) and the CLI agent (`src/agent.ts`), the shell tool
(`src/tools.ts`) and the session store.  Effectful collaborators (the model
stream, the four tool callables, the interactive confirmation prompt) are
modelled as explicit inputs: a turn receives the list of model responses it
will consume, and a `ToolEnv` of oracles standing for the tool callables and
the confirmation prompt.
-/

namespace LocalCoder

/-- JSON whitespace accepted by `JSON.parse`: space, tab, line feed, carriage
return (ECMA-404).  Distinct from the regex class `\s`, see `jsWs` below. -/
def jsonWs (c : Char) : Bool :=
  c = ' ' || c = '\t' || c = '\n' || c = '\r'

/-- The character class `\s` of JavaScript regular expressions (ECMA-262
WhiteSpace plus LineTerminator). -/
def jsWs (c : Char) : Bool :=
  c = ' ' || c = '\t' || c = '\n' || c = '\r' || c = '\x0b' || c = '\x0c' ||
  c = '\u00A0' || c = '\u1680' || ('\u2000' ≤ c && c ≤ '\u200A') ||
  c = '\u2028' || c = '\u2029' || c = '\u202F' || c = '\u205F' ||
  c = '\u3000' || c = '\uFEFF'

/-- A JSON value as produced by `JSON.parse`.  The numeric lexeme is kept as a
string: no claim in this development depends on numeric values, only on
whether parsing succeeds and on the shape of the value. -/
inductive Json where
  | null : Json
  | bool (b : Bool) : Json
  | num (lexeme : String) : Json
  | str (s : String) : Json
  | arr (xs : List Json) : Json
  | obj (fields : List (String × Json)) : Json

/-- One hexadecimal digit (for `\uXXXX` string escapes). -/
def isHexDigit (c : Char) : Bool :=
  ('0' ≤ c && c ≤ '9') || ('a' ≤ c && c ≤ 'f') || ('A' ≤ c && c ≤ 'F')

def isDigit (c : Char) : Bool := '0' ≤ c && c ≤ '9'

/-- Parse the body of a JSON string (after the opening quote), returning the
decoded characters and the rest of the input after the closing quote.
`JSON.parse` rejects raw control characters below U+0020 inside strings.
The code point of a `\uXXXX` escape is irrelevant to every claim here, so a
marker character stands for it. -/
def parseJsonString : List Char → Option (List Char × List Char)
  | [] => none
  | '"' :: rest => some ([], rest)
  | '\\' :: e :: rest =>
      match e with
      | '"' => (parseJsonString rest).map (fun p => ('"' :: p.1, p.2))
      | '\\' => (parseJsonString rest).map (fun p => ('\\' :: p.1, p.2))
      | '/' => (parseJsonString rest).map (fun p => ('/' :: p.1, p.2))
      | 'b' => (parseJsonString rest).map (fun p => ('\x08' :: p.1, p.2))
      | 'f' => (parseJsonString rest).map (fun p => ('\x0c' :: p.1, p.2))
      | 'n' => (parseJsonString rest).map (fun p => ('\n' :: p.1, p.2))
      | 'r' => (parseJsonString rest).map (fun p => ('\r' :: p.1, p.2))
      | 't' => (parseJsonString rest).map (fun p => ('\t' :: p.1, p.2))
      | 'u' =>
        match rest with
        | a :: b :: c :: d :: rest2 =>
          if isHexDigit a && isHexDigit b && isHexDigit c && isHexDigit d then
            (parseJsonString rest2).map (fun p => ('�' :: p.1, p.2))
          else none
        | _ => none
      | _ => none
  | c :: rest =>
      if c.val < 0x20 then none
      else (parseJsonString rest).map (fun p => (c :: p.1, p.2))

/-- Digits `[0-9]*`: the maximal run and the rest. -/
def takeDigits (cs : List Char) : List Char × List Char :=
  (cs.takeWhile isDigit, cs.dropWhile isDigit)

/-- Parse a JSON number per ECMA-404: `-? (0 | [1-9][0-9]*) frac? exp?`.
Returns the lexeme and the rest. -/
def parseJsonNumber (cs : List Char) : Option (List Char × List Char) :=
  let (sign, cs1) : List Char × List Char :=
    match cs with
    | '-' :: r => (['-'], r)
    | _ => ([], cs)
  let intPart : Option (List Char × List Char) :=
    match cs1 with
    | '0' :: r => some (sign ++ ['0'], r)
    | c :: r =>
      if isDigit c then
        let (ds, r2) := takeDigits r
        some (sign ++ c :: ds, r2)
      else none
    | [] => none
  intPart.bind (fun ip =>
    match ip.2 with
    | '.' :: r1 =>
      let (ds, r2) := takeDigits r1
      if ds = [] then none else some (ip.1 ++ '.' :: ds, r2)
    | _ => some ip)
  |>.bind (fun mp =>
    match mp.2 with
    | e :: r1 =>
      if e = 'e' || e = 'E' then
        let (es, r2) : List Char × List Char :=
          match r1 with
          | '+' :: rr => (['+'], rr)
          | '-' :: rr => (['-'], rr)
          | _ => ([], r1)
        let (ds, r3) := takeDigits r2
        if ds = [] then none else some (mp.1 ++ e :: es ++ ds, r3)
      else some mp
    | [] => some mp)

mutual
/-- Parse one JSON value.  `fuel` bounds nesting depth; `Json.parse` supplies
enough fuel that it never runs out on any input. -/
def parseJsonValue : Nat → List Char → Option (Json × List Char)
  | 0, _ => none
  | fuel + 1, cs =>
    match cs.dropWhile jsonWs with
    | [] => none
    | 't' :: 'r' :: 'u' :: 'e' :: r => some (.bool true, r)
    | 'f' :: 'a' :: 'l' :: 's' :: 'e' :: r => some (.bool false, r)
    | 'n' :: 'u' :: 'l' :: 'l' :: r => some (.null, r)
    | '"' :: r => (parseJsonString r).map (fun p => (.str ⟨p.1⟩, p.2))
    | '[' :: r => parseJsonArray fuel (r.dropWhile jsonWs)
    | '\x7b' :: r => parseJsonObject fuel (r.dropWhile jsonWs)
    | c :: rest => (parseJsonNumber (c :: rest)).map (fun p => (.num ⟨p.1⟩, p.2))

/-- Elements of an array, positioned after `[` with whitespace skipped. -/
def parseJsonArray : Nat → List Char → Option (Json × List Char)
  | 0, _ => none
  | fuel + 1, cs =>
    match cs with
    | ']' :: r => some (.arr [], r)
    | _ =>
      (parseJsonValue fuel cs).bind (fun p =>
        parseJsonArrayTail fuel [p.1] (p.2.dropWhile jsonWs))

/-- Remaining elements of an array after at least one element. -/
def parseJsonArrayTail : Nat → List Json → List Char → Option (Json × List Char)
  | 0, _, _ => none
  | fuel + 1, acc, cs =>
    match cs with
    | ']' :: r => some (.arr acc.reverse, r)
    | ',' :: r =>
      (parseJsonValue fuel (r.dropWhile jsonWs)).bind (fun p =>
        parseJsonArrayTail fuel (p.1 :: acc) (p.2.dropWhile jsonWs))
    | _ => none

/-- Members of an object, positioned after `{` with whitespace skipped. -/
def parseJsonObject : Nat → List Char → Option (Json × List Char)
  | 0, _ => none
  | fuel + 1, cs =>
    match cs with
    | '\x7d' :: r => some (.obj [], r)
    | '"' :: r =>
      (parseJsonString r).bind (fun kp =>
        match kp.2.dropWhile jsonWs with
        | ':' :: r2 =>
          (parseJsonValue fuel (r2.dropWhile jsonWs)).bind (fun vp =>
            parseJsonObjectTail fuel [(⟨kp.1⟩, vp.1)] (vp.2.dropWhile jsonWs))
        | _ => none)
    | _ => none

/-- Remaining members of an object after at least one member. -/
def parseJsonObjectTail : Nat → List (String × Json) → List Char →
    Option (Json × List Char)
  | 0, _, _ => none
  | fuel + 1, acc, cs =>
    match cs with
    | '\x7d' :: r => some (.obj acc.reverse, r)
    | ',' :: r =>
      (match r.dropWhile jsonWs with
       | '"' :: r1 =>
         (parseJsonString r1).bind (fun kp =>
           match kp.2.dropWhile jsonWs with
           | ':' :: r2 =>
             (parseJsonValue fuel (r2.dropWhile jsonWs)).bind (fun vp =>
               parseJsonObjectTail fuel ((⟨kp.1⟩, vp.1) :: acc)
                 (vp.2.dropWhile jsonWs))
           | _ => none)
       | _ => none)
    | _ => none
end

/-- `JSON.parse`: one value surrounded by optional whitespace, nothing after. -/
def Json.parse (s : String) : Option Json :=
  match parseJsonValue (s.data.length + 1) s.data with
  | some (v, rest) => if rest.dropWhile jsonWs = [] then some v else none
  | none => none

/-! ## Data model: streamed tool calls and messages

`StreamedToolCall` mirrors the `StreamedToolCall` interface of `server.ts`
and `agent.ts`; the constant `type: 'function'` field and the `function`
wrapper object are flattened away. -/

structure StreamedToolCall where
  id : String
  name : String
  arguments : String
deriving DecidableEq

/-- Conversation roles, as in the `ChatMessage` interface of `server.ts`. -/
inductive Role where
  | system | user | assistant | tool
deriving DecidableEq

/-- One transcript entry (`ChatMessage` in `server.ts`).  `tool_calls = []`
stands for the absent `tool_calls` field, and `tool_call_id = none` for the
absent correlation id. -/
structure ChatMessage where
  role : Role
  content : Option String
  tool_calls : List StreamedToolCall := []
  tool_call_id : Option String := none
deriving DecidableEq

def mkUser (s : String) : ChatMessage := ⟨.user, some s, [], none⟩

def mkSystem (s : String) : ChatMessage := ⟨.system, some s, [], none⟩

/-! ## Delta accumulator

Mirrors the fragment-accumulation loop that appears identically in
`processSingleModeChat` / `processExecutingChat` (`server.ts`) and
`processSingleModelTurn` / `processExecutingPhase` (`agent.ts`):

```
const index = toolCallDelta.index;
if (index !== currentToolCallIndex) {
  currentToolCallIndex = index;
  if (!toolCalls[index]) {
    toolCalls[index] = { id: toolCallDelta.id || '', type: 'function',
                         function: { name: '', arguments: '' } };
  }
}
if (toolCallDelta.id) toolCalls[index].id = toolCallDelta.id;
if (toolCallDelta.function?.name) toolCalls[index].function.name += ...;
if (toolCallDelta.function?.arguments) toolCalls[index].function.arguments += ...;
```
-/

/-- One tool-call delta from a stream chunk: index, optional id, optional
name fragment, optional arguments fragment (`function.name` and
`function.arguments` flattened). -/
structure ToolCallDelta where
  index : Nat
  id : Option String := none
  name : Option String := none
  arguments : Option String := none
deriving DecidableEq

/-- Accumulator state: the sparse array `toolCalls` (as a map from index), the
JavaScript array length, and `currentToolCallIndex` (`none` models the `-1`
sentinel, which no `Nat` index ever equals). -/
structure AccState where
  calls : Nat → Option StreamedToolCall
  len : Nat
  cur : Option Nat

def accInit : AccState := ⟨fun _ => none, 0, none⟩

/-- The record freshly inserted for a first-seen index:
`{ id: toolCallDelta.id || '', function: { name: '', arguments: '' } }`. -/
def initRec (d : ToolCallDelta) : StreamedToolCall :=
  ⟨d.id.getD "", "", ""⟩

/-- The three per-fragment field updates.  `if (toolCallDelta.id)` is the
JavaScript truthiness test, so an empty-string id does not overwrite; the
name/arguments guards only skip appends of the empty string, which appending
`getD ""` reproduces exactly. -/
def updRec (r : StreamedToolCall) (d : ToolCallDelta) : StreamedToolCall :=
  let r1 := match d.id with
    | some i => if i = "" then r else { r with id := i }
    | none => r
  { r1 with
    name := r1.name ++ d.name.getD "",
    arguments := r1.arguments ++ d.arguments.getD "" }

/-- The `if (index !== currentToolCallIndex) { ... }` block: advance the
current index and insert a fresh record if the slot is empty. -/
def accStepInit (s : AccState) (d : ToolCallDelta) : AccState :=
  if some d.index ≠ s.cur then
    match s.calls d.index with
    | none =>
      { calls := Function.update s.calls d.index (some (initRec d)),
        len := max s.len (d.index + 1),
        cur := some d.index }
    | some _ => { s with cur := some d.index }
  else s

/-- One step of the accumulation loop.  `none` models the `TypeError` raised
when `toolCalls[index]` is read while absent with
`index === currentToolCallIndex`; `accRun_some` shows this never happens from
`accInit`. -/
def accStep (s : AccState) (d : ToolCallDelta) : Option AccState :=
  match (accStepInit s d).calls d.index with
  | none => none
  | some r =>
    some { accStepInit s d with
      calls := Function.update (accStepInit s d).calls d.index (some (updRec r d)) }

/-- Run the accumulator over a fragment sequence. -/
def accRun : AccState → List ToolCallDelta → Option AccState
  | s, [] => some s
  | s, d :: ds =>
    match accStep s d with
    | some s2 => accRun s2 ds
    | none => none

def accumulate (ds : List ToolCallDelta) : Option AccState :=
  accRun accInit ds

/-- The invariant making the `TypeError` branch unreachable: whenever
`currentToolCallIndex` points at an index, that slot is populated. -/
def AccInv (s : AccState) : Prop :=
  ∀ i, s.cur = some i → (s.calls i).isSome

/-- Reference per-index accumulation: fold the fragments addressed to index
`i` over an optional starting record. -/
def accCallAt (prev : Option StreamedToolCall) (i : Nat) :
    List ToolCallDelta → Option StreamedToolCall
  | [] => prev
  | d :: ds =>
    accCallAt (if d.index = i then some (updRec ((prev.getD (initRec d))) d) else prev) i ds

theorem accInit_inv : AccInv accInit := by
  intro i h
  simp [accInit] at h

theorem accStepInit_cur (s : AccState) (d : ToolCallDelta) :
    (accStepInit s d).cur = some d.index := by
  unfold accStepInit
  by_cases hcur : some d.index ≠ s.cur
  · cases hcalls : s.calls d.index <;> simp [hcur, hcalls]
  · push_neg at hcur
    simp [hcur]

theorem accStepInit_at (s : AccState) (d : ToolCallDelta) (h : AccInv s) :
    (accStepInit s d).calls d.index = some ((s.calls d.index).getD (initRec d)) := by
  unfold accStepInit
  by_cases hcur : some d.index ≠ s.cur
  · cases hcalls : s.calls d.index with
    | none => simp [hcur, hcalls, Function.update]
    | some r => simp [hcur, hcalls]
  · push_neg at hcur
    have hidx := h d.index hcur.symm
    cases hcalls : s.calls d.index with
    | none => rw [hcalls] at hidx; simp at hidx
    | some r => simp [hcur, hcalls]

theorem accStepInit_ne (s : AccState) (d : ToolCallDelta) (i : Nat)
    (hi : d.index ≠ i) : (accStepInit s d).calls i = s.calls i := by
  unfold accStepInit
  by_cases hcur : some d.index ≠ s.cur
  · cases hcalls : s.calls d.index <;> simp [hcur, hcalls, Function.update, Ne.symm hi]
  · push_neg at hcur
    simp [hcur]

theorem accStep_eq (s : AccState) (d : ToolCallDelta) (h : AccInv s) :
    ∃ s2, accStep s d = some s2 ∧ AccInv s2 ∧
      (∀ i, s2.calls i =
        if d.index = i then some (updRec ((s.calls i).getD (initRec d)) d)
        else s.calls i) := by
  refine ⟨{ accStepInit s d with
      calls := Function.update (accStepInit s d).calls d.index
        (some (updRec ((s.calls d.index).getD (initRec d)) d)) }, ?_, ?_, ?_⟩
  · unfold accStep
    rw [accStepInit_at s d h]
  · intro i hi
    simp only [accStepInit_cur] at hi
    cases hi
    simp [Function.update]
  · intro i
    by_cases hi : d.index = i
    · subst hi
      simp [Function.update]
    · simp [Function.update, hi, Ne.symm hi, accStepInit_ne s d i hi]

/-- From an invariant state the run never hits the `TypeError` branch, and the
final per-index record is the reference fold `accCallAt`. -/
theorem accRun_some (ds : List ToolCallDelta) (s : AccState) (h : AccInv s) :
    ∃ t, accRun s ds = some t ∧ AccInv t ∧
      ∀ i, t.calls i = accCallAt (s.calls i) i ds := by
  induction ds generalizing s with
  | nil => exact ⟨s, rfl, h, fun i => rfl⟩
  | cons d ds ih =>
    obtain ⟨s2, hstep, hinv2, hcalls2⟩ := accStep_eq s d h
    obtain ⟨t, hrun, hinvt, hcallst⟩ := ih s2 hinv2
    refine ⟨t, ?_, hinvt, ?_⟩
    · simp [accRun, hstep, hrun]
    · intro i
      rw [hcallst i, hcalls2 i, accCallAt]

/-- The finalized tool call at a given index, once the stream has ended. -/
def finalCallAt (ds : List ToolCallDelta) (i : Nat) : Option StreamedToolCall :=
  (accumulate ds).bind (fun s => s.calls i)

/-- The fragments addressed to index `i`, in arrival order. -/
def fragsAt (ds : List ToolCallDelta) (i : Nat) : List ToolCallDelta :=
  ds.filter (fun d => decide (d.index = i))

/-- The last id supplied by any fragment for index `i`, starting from `a`. -/
def lastIdFrom (a : String) (i : Nat) : List ToolCallDelta → String
  | [] => a
  | d :: ds =>
    lastIdFrom (if d.index = i then (match d.id with | some s => s | none => a) else a) i ds

/-- The last id supplied by any fragment for index `i`, defaulting to `""`. -/
def lastIdAt (ds : List ToolCallDelta) (i : Nat) : String :=
  lastIdFrom "" i ds

/-- Concatenation, in arrival order, of the name fragments for index `i`. -/
def nameAt (i : Nat) : List ToolCallDelta → String
  | [] => ""
  | d :: ds => (if d.index = i then d.name.getD "" else "") ++ nameAt i ds

/-- Concatenation, in arrival order, of the arguments fragments for index `i`. -/
def argsAt (i : Nat) : List ToolCallDelta → String
  | [] => ""
  | d :: ds => (if d.index = i then d.arguments.getD "" else "") ++ argsAt i ds

/-- Indices of a fragment sequence are monotonically non-decreasing. -/
def indexMonotoneB : List ToolCallDelta → Bool
  | [] => true
  | [_] => true
  | a :: b :: rest => (a.index ≤ b.index) && indexMonotoneB (b :: rest)

def IndexMonotone (ds : List ToolCallDelta) : Prop :=
  indexMonotoneB ds = true

instance : DecidablePred IndexMonotone := fun ds =>
  inferInstanceAs (Decidable (indexMonotoneB ds = true))

theorem updRec_id (r : StreamedToolCall) (d : ToolCallDelta) (h : d.id ≠ some "") :
    (updRec r d).id = (match d.id with | some s => s | none => r.id) := by
  cases hid : d.id with
  | none => simp [updRec, hid]
  | some s =>
    have hs : s ≠ "" := by intro hs; exact h (by rw [hid, hs])
    simp [updRec, hid, hs]

theorem updRec_name (r : StreamedToolCall) (d : ToolCallDelta) :
    (updRec r d).name = r.name ++ d.name.getD "" := by
  cases hid : d.id with
  | none => simp [updRec, hid]
  | some s =>
    by_cases hs : s = "" <;> simp [updRec, hid, hs]

theorem updRec_args (r : StreamedToolCall) (d : ToolCallDelta) :
    (updRec r d).arguments = r.arguments ++ d.arguments.getD "" := by
  cases hid : d.id with
  | none => simp [updRec, hid]
  | some s =>
    by_cases hs : s = "" <;> simp [updRec, hid, hs]

theorem accCallAt_some (r : StreamedToolCall) (i : Nat) (ds : List ToolCallDelta)
    (hval : ∀ d ∈ ds, d.id ≠ some "") :
    accCallAt (some r) i ds =
      some ⟨lastIdFrom r.id i ds, r.name ++ nameAt i ds, r.arguments ++ argsAt i ds⟩ := by
  induction ds generalizing r with
  | nil => simp [accCallAt, lastIdFrom, nameAt, argsAt]
  | cons d ds ih =>
    have hd : d.id ≠ some "" := hval d (by simp)
    have hds : ∀ d' ∈ ds, d'.id ≠ some "" := fun d' h' => hval d' (by simp [h'])
    by_cases hi : d.index = i
    · rw [accCallAt]
      simp only [hi, if_pos, Option.getD_some]
      rw [ih (updRec r d) hds]
      rw [lastIdFrom, nameAt, argsAt]
      simp only [hi, if_pos]
      rw [updRec_id r d hd, updRec_name, updRec_args,
        String.append_assoc, String.append_assoc]
    · rw [accCallAt]
      simp only [hi, if_neg, ite_false]
      rw [ih r hds, lastIdFrom, nameAt, argsAt]
      simp only [hi, ite_false, if_neg]
      rw [String.empty_append, String.empty_append]

/-- Per-index characterization of accumulation from the empty state: an index
with no fragment stays unassigned; an index with fragments ends with the last
supplied id (default empty) and the in-order concatenations of its name and
arguments fragments. -/
theorem accCallAt_none (i : Nat) (ds : List ToolCallDelta)
    (hval : ∀ d ∈ ds, d.id ≠ some "") :
    accCallAt none i ds =
      if fragsAt ds i = [] then none
      else some ⟨lastIdAt ds i, nameAt i ds, argsAt i ds⟩ := by
  induction ds with
  | nil => simp [accCallAt, fragsAt]
  | cons d ds ih =>
    have hd : d.id ≠ some "" := hval d (by simp)
    have hds : ∀ d' ∈ ds, d'.id ≠ some "" := fun d' h' => hval d' (by simp [h'])
    by_cases hi : d.index = i
    · rw [accCallAt]
      simp only [hi, if_pos, Option.getD_none]
      rw [accCallAt_some _ _ _ hds]
      have hfrags : fragsAt (d :: ds) i ≠ [] := by
        simp [fragsAt, hi]
      simp only [hfrags, if_neg, ite_false]
      rw [updRec_id _ d hd, updRec_name, updRec_args]
      simp only [lastIdAt, lastIdFrom, nameAt, argsAt, hi, if_pos]
      cases hid : d.id with
      | none => simp [initRec, hid]
      | some s => simp [initRec, hid]
    · rw [accCallAt]
      simp only [hi, ite_false, if_neg]
      rw [ih hds]
      have hfrags : fragsAt (d :: ds) i = fragsAt ds i := by
        simp [fragsAt, hi]
      rw [hfrags]
      simp only [lastIdAt, lastIdFrom, nameAt, argsAt, hi, ite_false, if_neg]
      rw [String.empty_append, String.empty_append]

theorem finalCallAt_eq (ds : List ToolCallDelta) (i : Nat)
    (hval : ∀ d ∈ ds, d.id ≠ some "") :
    finalCallAt ds i =
      if fragsAt ds i = [] then none
      else some ⟨lastIdAt ds i, nameAt i ds, argsAt i ds⟩ := by
  obtain ⟨t, hrun, _, hcalls⟩ := accRun_some ds accInit accInit_inv
  rw [finalCallAt, accumulate, hrun]
  show t.calls i = _
  rw [hcalls i]
  show accCallAt none i ds = _
  exact accCallAt_none i ds hval

/-- Feeding the accumulator one unfragmented call yields exactly that call. -/
theorem finalCallAt_single (i : Nat) (idv nm ag : String) :
    finalCallAt [⟨i, some idv, some nm, some ag⟩] i = some ⟨idv, nm, ag⟩ := by
  obtain ⟨t, hrun, _, hcalls⟩ :=
    accRun_some [⟨i, some idv, some nm, some ag⟩] accInit accInit_inv
  rw [finalCallAt, accumulate, hrun]
  show t.calls i = _
  rw [hcalls i]
  show accCallAt none i [⟨i, some idv, some nm, some ag⟩] = _
  simp only [accCallAt, if_pos rfl, Option.getD_none]
  by_cases hid : idv = "" <;>
    simp [updRec, initRec, hid, String.empty_append]

/-! ## Fallback tool-call extractor (`parseTextToolCalls`)

The two regular expressions of `parseTextToolCalls` are

```
const codeBlockRegex =
  /```(?:tool_request|json)?\s*\n?\{[^`]*"name"\s*:\s*"([^"]+)"[^`]*"arguments"\s*:\s*(\{[^`]*\})/gi;
const jsonRegex =
  /\{"name"\s*:\s*"([^"]+)"\s*,\s*"arguments"\s*:\s*(\{[^}]+\})\}/g;
```

They are embedded as explicit scanners: a `while (exec)` loop over a `/g`
regex emits successive non-overlapping leftmost matches, the greedy
quantifiers backtracking from the longest candidate. -/

/-- Match a literal character sequence exactly, returning the rest. -/
def litEx : List Char → List Char → Option (List Char)
  | [], cs => some cs
  | p :: ps, c :: cs => if c = p then litEx ps cs else none
  | _ :: _, [] => none

/-- Match a literal case-insensitively (for the `/i` flag of pattern 1;
on characters without case this is exact matching). -/
def litCI : List Char → List Char → Option (List Char)
  | [], cs => some cs
  | p :: ps, c :: cs => if c.toLower = p.toLower then litCI ps cs else none
  | _ :: _, [] => none

/-- `\s*` followed by a non-whitespace literal: skip the maximal run. -/
def skipJsWs (cs : List Char) : List Char := cs.dropWhile jsWs

/-- A `+` over a character class followed by a character the class excludes:
the maximal nonempty run, deterministically. -/
def takeClass1 (p : Char → Bool) (cs : List Char) : Option (List Char × List Char) :=
  if cs.takeWhile p = [] then none
  else some (cs.takeWhile p, cs.dropWhile p)

/-- Greedy `*` with backtracking: try the continuation at `k = n` down to `0`,
longest first. -/
def tryFromDesc (f : Nat → Option α) : Nat → Option α
  | 0 => f 0
  | n + 1 => (f (n + 1)).orElse (fun _ => tryFromDesc f n)

def firstSome (f : α → Option β) : List α → Option β
  | [] => none
  | a :: rest => (f a).orElse (fun _ => firstSome f rest)

/-- Pattern 2 (`jsonRegex`) at the current position:
`\{"name"\s*:\s*"([^"]+)"\s*,\s*"arguments"\s*:\s*(\{[^}]+\})\}`.
Each greedy `*`/`+` here is followed by a character its class excludes, so the
match is deterministic: no backtracking can change it. -/
def matchInlineAt (cs : List Char) : Option (String × String × List Char) := do
  let cs ← litEx "\x7b\"name\"".data cs
  let cs := skipJsWs cs
  let cs ← litEx ":".data cs
  let cs := skipJsWs cs
  let cs ← litEx "\"".data cs
  let (nm, cs) ← takeClass1 (fun c => c ≠ '\"') cs
  let cs ← litEx "\"".data cs
  let cs := skipJsWs cs
  let cs ← litEx ",".data cs
  let cs := skipJsWs cs
  let cs ← litEx "\"arguments\"".data cs
  let cs := skipJsWs cs
  let cs ← litEx ":".data cs
  let cs := skipJsWs cs
  let cs ← litEx "\x7b".data cs
  let (body, cs) ← takeClass1 (fun c => c ≠ '\x7d') cs
  let cs ← litEx "\x7d".data cs
  let cs ← litEx "\x7d".data cs
  return (String.mk nm, "\x7b" ++ String.mk body ++ "\x7d", cs)

/-- The final capture group `(\{[^`]*\})` of pattern 1, with the greedy
`[^`]*` backtracking longest first. -/
def matchBlockArgs (nm : List Char) (cs4 : List Char) :
    Option (String × String × List Char) :=
  tryFromDesc (fun k3 =>
    (litCI "\x7d".data (cs4.drop k3)).map (fun rest =>
      (String.mk nm, "\x7b" ++ String.mk (cs4.take k3) ++ "\x7d", rest)))
    ((cs4.takeWhile (fun c => c ≠ '`')).length)

/-- `[^`]*"arguments"\s*:\s*\{` of pattern 1 and what follows, with the
greedy `[^`]*` backtracking longest first. -/
def matchBlockAfterName (nm : List Char) (cs2 : List Char) :
    Option (String × String × List Char) :=
  tryFromDesc (fun k2 => do
    let cs3 ← litCI "\"arguments\"".data (cs2.drop k2)
    let cs3 := skipJsWs cs3
    let cs3 ← litCI ":".data cs3
    let cs3 := skipJsWs cs3
    let cs4 ← litCI "\x7b".data cs3
    matchBlockArgs nm cs4)
    ((cs2.takeWhile (fun c => c ≠ '`')).length)

/-- Pattern 1 after the fence and optional tag: `\s*\n?\{` then
`[^`]*"name"\s*:\s*"([^"]+)"` and the rest.  Since `\n` is itself
whitespace, `\s*\n?` can only deliver the first non-whitespace position, so
it reduces to skipping the whitespace run.  The greedy `[^`]*` backtracks,
longest first; the name capture `([^"]+)` is deterministic (its class
excludes the `"` that follows). -/
def matchBlockBody (cs0 : List Char) : Option (String × String × List Char) := do
  let cs ← litCI "\x7b".data (skipJsWs cs0)
  tryFromDesc (fun k1 => do
    let cs1 ← litCI "\"name\"".data (cs.drop k1)
    let cs1 := skipJsWs cs1
    let cs1 ← litCI ":".data cs1
    let cs1 := skipJsWs cs1
    let cs1 ← litCI "\"".data cs1
    let (nm, cs1) ← takeClass1 (fun c => c ≠ '\"') cs1
    let cs2 ← litCI "\"".data cs1
    matchBlockAfterName nm cs2)
    ((cs.takeWhile (fun c => c ≠ '`')).length)

/-- The rests reachable through `(?:tool_request|json)?`, in the order a
backtracking engine tries them: tag `tool_request`, tag `json`, no tag. -/
def tagRests (cs : List Char) : List (List Char) :=
  (litCI "tool_request".data cs).toList ++ (litCI "json".data cs).toList ++ [cs]

/-- Pattern 1 (`codeBlockRegex`) at the current position. -/
def matchCodeBlockAt (cs : List Char) : Option (String × String × List Char) :=
  (litCI "```".data cs).bind (fun cs => firstSome matchBlockBody (tagRests cs))

/-- The `while ((match = regex.exec(content)) !== null)` loop of a `/g` regex:
successive non-overlapping leftmost matches, resuming after each match.  Both
patterns consume at least one character per match, so `length + 1` fuel never
runs out. -/
def scanFrom (tryAt : List Char → Option (String × String × List Char)) :
    Nat → List Char → List (String × String)
  | 0, _ => []
  | _ + 1, [] => []
  | n + 1, c :: cs =>
    match tryAt (c :: cs) with
    | some (nm, ag, rest) => (nm, ag) :: scanFrom tryAt n rest
    | none => scanFrom tryAt n cs

def scanBlocks (cs : List Char) : List (String × String) :=
  scanFrom matchCodeBlockAt (cs.length + 1) cs

def scanInline (cs : List Char) : List (String × String) :=
  scanFrom matchInlineAt (cs.length + 1) cs

/-- Validate candidates with `JSON.parse` and assign sequential local ids
`text-tool-0`, `text-tool-1`, ...: in the source, `id++` sits inside the
successful push, after `JSON.parse(args)`, so the counter advances only on
valid candidates; invalid ones are silently dropped. -/
def validatedStep (acc : List StreamedToolCall × Nat) (m : String × String) :
    List StreamedToolCall × Nat :=
  match Json.parse m.2 with
  | some _ => (acc.1 ++ [⟨"text-tool-" ++ toString acc.2, m.1, m.2⟩], acc.2 + 1)
  | none => acc

def validated (ms : List (String × String)) : List StreamedToolCall :=
  (ms.foldl validatedStep (([] : List StreamedToolCall), 0)).1

/-- `parseTextToolCalls` (`server.ts` 465-512; `agent.ts` identical): try the
fenced-code-block pattern; only if it contributed no tool call
(`if (toolCalls.length === 0)`) try the bare inline JSON pattern. -/
def parseTextToolCalls (content : String) : List StreamedToolCall :=
  let fromBlocks := validated (scanBlocks content.data)
  if fromBlocks.length = 0 then validated (scanInline content.data)
  else fromBlocks

/-! ## Tools (`tools.ts`) -/

/-- The timeout passed to `execWithTimeout` by `runShellCommand` (also its
default), in milliseconds. -/
def SHELL_TIMEOUT_MS : Nat := 30000

/-- The callback outcome of `exec` inside `execWithTimeout`: success with
stdout/stderr, or a rejection carrying the error's `killed` flag (set when
the timeout terminated the child), its message, and the captured stderr
(`error.stderr || ''` modelled as a plain string). -/
inductive ExecOutcome where
  | success (stdout stderr : String)
  | failure (killed : Bool) (message : String) (stderr : String)

/-- `runShellCommand` (`tools.ts` 151-164) as a pure function of the exec
outcome: format STDOUT/STDERR sections on success; a killed (timed-out)
child yields the fixed timeout string; any other error yields
`Error executing command: ...`.  Total: the `try/catch` means it returns a
string in every case instead of throwing. -/
def runShellCommand (outcome : ExecOutcome) : String :=
  match outcome with
  | .success stdout stderr =>
    let output :=
      (if stdout ≠ "" then "STDOUT:\n" ++ stdout ++ "\n" else "") ++
      (if stderr ≠ "" then "STDERR:\n" ++ stderr ++ "\n" else "")
    if output = "" then "(Command completed with no output)" else output
  | .failure killed message stderr =>
    if killed then "Error: Command timed out after 30 seconds"
    else "Error executing command: " ++ message ++ "\nSTDERR:\n" ++ stderr

/-! ## Tool dispatch -/

/-- What invoking one of the four tool callables produces: a returned string,
or a thrown exception with a message (the callables of `tools.ts` catch their
own expected failures and return `Error: ...` strings, but the dispatcher
still guards against unexpected exceptions). -/
inductive ToolOutcome where
  | ok (result : String)
  | exn (message : String)

/-- The effectful collaborators of a turn: the four tool callables (as
oracles from the parsed arguments object) and the CLI confirmation prompt
(as an oracle from the tool name being confirmed). -/
structure ToolEnv where
  list_files : Json → ToolOutcome
  read_file : Json → ToolOutcome
  write_file : Json → ToolOutcome
  run_shell_command : Json → ToolOutcome
  confirm : String → Bool

/-- Events pushed to the SSE observer by the web server. -/
inductive SseEvent where
  | content (text : String)
  | enhancing_content (text : String)
  | phase_start (phase model : String)
  | phase_end (phase : String)
  | tool_start (name : String) (args : Json)
  | tool_result (name result : String)
  | tool_error (name error : String)
  | done
  | error (message : String)

def SseEvent.isToolStart : SseEvent → Bool
  | .tool_start _ _ => true
  | _ => false

/-- The `if/else if` chain of `executeToolAndSendEvents` (`server.ts`
446-450); the unknown-tool branch calls nothing and produces the fixed
string. -/
def dispatchServer (env : ToolEnv) (fnName : String) (args : Json) : ToolOutcome :=
  if fnName = "list_files" then env.list_files args
  else if fnName = "read_file" then env.read_file args
  else if fnName = "write_file" then env.write_file args
  else if fnName = "run_shell_command" then env.run_shell_command args
  else .ok "Error: Unknown tool function"

/-- The same chain in the CLI `executeToolCall` (`agent.ts` 552-556), whose
unknown-tool string differs. -/
def dispatchCLI (env : ToolEnv) (fnName : String) (args : Json) : ToolOutcome :=
  if fnName = "list_files" then env.list_files args
  else if fnName = "read_file" then env.read_file args
  else if fnName = "write_file" then env.write_file args
  else if fnName = "run_shell_command" then env.run_shell_command args
  else .ok "Error: Unknown tool"

/-- `result.substring(0, 5000) + '\n... (truncated)'` for display events. -/
def truncateForDisplay (result : String) : String :=
  if result.length > 5000 then result.take 5000 ++ "\n... (truncated)"
  else result

/-- `executeToolAndSendEvents` (`server.ts` 426-462): parse the arguments; on
failure push a `tool_error` event and the fixed parse-failure tool message
(note: no `tool_start` is sent on this path).  Otherwise send `tool_start`,
dispatch, and push either a `tool_result` event with the full result in
history, or — if the callable threw — a `tool_error` event with an
`Error: <message>` history entry.  Returns the emitted events and the
messages pushed to history. -/
def executeToolAndSendEvents (env : ToolEnv) (toolCall : StreamedToolCall) :
    List SseEvent × List ChatMessage :=
  let fnName := toolCall.name
  match Json.parse toolCall.arguments with
  | none =>
    ([.tool_error fnName "Failed to parse arguments"],
     [⟨.tool, some "Error: Failed to parse tool arguments", [], some toolCall.id⟩])
  | some args =>
    match dispatchServer env fnName args with
    | .ok result =>
      ([.tool_start fnName args, .tool_result fnName (truncateForDisplay result)],
       [⟨.tool, some result, [], some toolCall.id⟩])
    | .exn msg =>
      ([.tool_start fnName args, .tool_error fnName msg],
       [⟨.tool, some ("Error: " ++ msg), [], some toolCall.id⟩])

/-- The approval test of the CLI `executeToolCall` (`agent.ts` 544):
`if (fnName === 'write_file' || fnName === 'run_shell_command')`. -/
def requiresApproval (fnName : String) : Bool :=
  fnName = "write_file" || fnName = "run_shell_command"

/-- The CLI `executeToolCall` (`agent.ts` 523-568): parse the arguments (on
failure push the fixed parse-failure message and return); ask the `confirm`
collaborator iff the tool requires approval; on denial the result is the
fixed denial string and no callable runs; otherwise dispatch, turning a
thrown exception into `Error: <message>`.  Exactly one tool message is
pushed on every path. -/
def executeToolCall (env : ToolEnv) (toolCall : StreamedToolCall) :
    List ChatMessage :=
  let fnName := toolCall.name
  match Json.parse toolCall.arguments with
  | none => [⟨.tool, some "Error: Failed to parse tool arguments", [], some toolCall.id⟩]
  | some args =>
    let allowed := if requiresApproval fnName then env.confirm fnName else true
    let result :=
      if allowed then
        match dispatchCLI env fnName args with
        | .ok r => r
        | .exn m => "Error: " ++ m
      else "Tool execution denied by user."
    [⟨.tool, some result, [], some toolCall.id⟩]

/-! ## Turn engine -/

/-- One chunk of a streamed model response
(`chunk.choices[0]?.delta`); a chunk with no delta is `{ none, [] }`. -/
structure ModelChunk where
  content : Option String := none
  tool_calls : List ToolCallDelta := []

/-- One full streamed model response. -/
structure ModelResponse where
  chunks : List ModelChunk

/-- `fullContent`: concatenation of the content chunks in arrival order
(`if (delta.content)` skips only empty/absent content, which appending
`getD ""` reproduces). -/
def respText (resp : ModelResponse) : String :=
  resp.chunks.foldl (fun t c => t ++ c.content.getD "") ""

/-- The tool-call deltas of a response, in arrival order. -/
def respDeltas (resp : ModelResponse) : List ToolCallDelta :=
  (resp.chunks.map ModelChunk.tool_calls).flatten

/-- Iterating the JavaScript array `toolCalls` after the stream ends
(indices `0 .. length-1`; unassigned slots are skipped — from monotone
index streams starting at 0 there are none). -/
def nativeCalls (s : AccState) : List StreamedToolCall :=
  (List.range s.len).filterMap s.calls

/-- The fallback gate after the stream ends
(`if (toolCalls.length === 0 && fullContent) { ... }`): text extraction is
attempted only when no native tool call arrived and the assembled text is
nonempty, and replaces the (empty) native list only when it produced
something. -/
def finalizeRound (text : String) (s : AccState) : List StreamedToolCall :=
  if s.len = 0 ∧ text ≠ "" then
    let parsed := parseTextToolCalls text
    if parsed.length > 0 then parsed else nativeCalls s
  else nativeCalls s

/-- `{ role: 'assistant', content: fullContent || null }`, with `tool_calls`
attached when nonempty (`[]` models the absent field). -/
def assistantMsgOf (text : String) (calls : List StreamedToolCall) : ChatMessage :=
  ⟨.assistant, if text = "" then none else some text, calls, none⟩

def dispatchAllServer (env : ToolEnv) (calls : List StreamedToolCall) :
    List ChatMessage :=
  (calls.map (fun tc => (executeToolAndSendEvents env tc).2)).flatten

def dispatchAllCLI (env : ToolEnv) (calls : List StreamedToolCall) :
    List ChatMessage :=
  (calls.map (fun tc => executeToolCall env tc)).flatten

/-- The `while (!finishedTurn)` loop of `processSingleModeChat` (`server.ts`
287-354).  `script` holds the successive responses the
`client.chat.completions.create` calls stream back; an exhausted script
models a transport error, which (with no `try` inside this function) aborts
the turn — `none`.  The `autoApprove` parameter is accepted and never read,
exactly as in the source. -/
def processSingleModeChat (env : ToolEnv) (autoApprove : Bool) :
    List ModelResponse → List ChatMessage → Option (List ChatMessage)
  | [], _ => none
  | resp :: rest, history =>
    match accumulate (respDeltas resp) with
    | none => none
    | some s =>
      let text := respText resp
      let toolCalls := finalizeRound text s
      let history := history ++ [assistantMsgOf text toolCalls]
      if toolCalls.length > 0 then
        processSingleModeChat env autoApprove rest
          (history ++ dispatchAllServer env toolCalls)
      else some history

/-- `processExecutingChat` (`server.ts` 357-423): textually a second copy of
the same loop, used for the dual-mode executing phase (bound to
`config.executingModel`, no `autoApprove` parameter at all). -/
def processExecutingChat (env : ToolEnv) :
    List ModelResponse → List ChatMessage → Option (List ChatMessage)
  | [], _ => none
  | resp :: rest, history =>
    match accumulate (respDeltas resp) with
    | none => none
    | some s =>
      let text := respText resp
      let toolCalls := finalizeRound text s
      let history := history ++ [assistantMsgOf text toolCalls]
      if toolCalls.length > 0 then
        processExecutingChat env rest (history ++ dispatchAllServer env toolCalls)
      else some history

/-- The CLI `processSingleModelTurn` loop (`agent.ts` 290-380): same
accumulation, fallback and dispatch, but each round sits in a `try` whose
`catch` prints the error and sets `finishedTurn = true`, so a transport
error ends the turn with the history accumulated so far. -/
def processSingleModelTurn (env : ToolEnv) :
    List ModelResponse → List ChatMessage → List ChatMessage
  | [], history => history
  | resp :: rest, history =>
    match accumulate (respDeltas resp) with
    | none => history
    | some s =>
      let text := respText resp
      let toolCalls := finalizeRound text s
      let history := history ++ [assistantMsgOf text toolCalls]
      if toolCalls.length > 0 then
        processSingleModelTurn env rest (history ++ dispatchAllCLI env toolCalls)
      else history

/-- The CLI `processExecutingPhase` loop (`agent.ts` 383-470): same structure
as `processSingleModelTurn`, bound to the executing model. -/
def processExecutingPhase (env : ToolEnv) :
    List ModelResponse → List ChatMessage → List ChatMessage
  | [], history => history
  | resp :: rest, history =>
    match accumulate (respDeltas resp) with
    | none => history
    | some s =>
      let text := respText resp
      let toolCalls := finalizeRound text s
      let history := history ++ [assistantMsgOf text toolCalls]
      if toolCalls.length > 0 then
        processExecutingPhase env rest (history ++ dispatchAllCLI env toolCalls)
      else history

/-! ## Dual-phase orchestrators -/

/-- `EXECUTING_SYSTEM_PROMPT`, identical in `server.ts` and `agent.ts`. -/
def EXECUTING_SYSTEM_PROMPT : String :=
  "You are a skilled software engineer. You have function calling capabilities to interact with the file system.\n\nYour available functions are: list_files, read_file, write_file, run_shell_command\n\nIMPORTANT: Do NOT write out tool calls as text. The system will automatically detect when you want to use a tool. Just describe what you're doing and the tools will be invoked for you.\n\nWORKFLOW:\n1. First, check the current directory\n2. Create any needed folders\n3. Create files with real code\n4. Run any setup commands\n5. Summarize what you created\n\nRULES:\n- Narrate as you work: \"I'll create the folder first...\", \"Now writing the main file...\"\n- Create project folders using kebab-case naming\n- If something fails, explain and retry"

/-- The fresh executor history the web server's `processDualModeChat` builds
on every invocation (`server.ts` 276-279). -/
def serverDualExecHistory (enhancedPrompt : String) : List ChatMessage :=
  [mkSystem EXECUTING_SYSTEM_PROMPT, mkUser enhancedPrompt]

/-- `processDualModeChat` (`server.ts` 243-284): accumulate the enhancer
stream into `enhancedPrompt`, then run the executing loop on a fresh
two-message history.  The function receives no session state and its
executor history does not outlive the invocation. -/
def processDualModeChat (env : ToolEnv) (enhancerChunks : List String)
    (execScript : List ModelResponse) : Option (List ChatMessage) :=
  let enhancedPrompt := enhancerChunks.foldl (fun a t => a ++ t) ""
  processExecutingChat env execScript (serverDualExecHistory enhancedPrompt)

/-- The CLI `processDualModelTurn` (`agent.ts` 189-287), after the user
confirmed execution: seed the persistent `dualModeHistory` with the executor
system prompt iff it is empty (`if (dualModeHistory.length === 0)`), append
the enhanced prompt as a user message, and run the executing phase on it.
`enhancedPrompt` is the accumulated enhancer stream text. -/
def processDualModelTurn (env : ToolEnv) (enhancedPrompt : String)
    (execScript : List ModelResponse) (dualModeHistory : List ChatMessage) :
    List ChatMessage :=
  let h :=
    if dualModeHistory.length = 0
    then dualModeHistory ++ [mkSystem EXECUTING_SYSTEM_PROMPT]
    else dualModeHistory
  processExecutingPhase env execScript (h ++ [mkUser enhancedPrompt])

/-! ## Session store (`server.ts`) -/

structure SessionData where
  history : List ChatMessage
  dualMode : Bool
deriving DecidableEq

/-- `const sessions: Map<string, { history, dualMode }>`. -/
def SessionStore := String → Option SessionData

/-- `/api/chat` (`server.ts` 175-178): lazily create the session on the first
request carrying its id. -/
def ensureSession (store : SessionStore) (sessionId : String)
    (useDualMode : Bool) : SessionStore :=
  match store sessionId with
  | some _ => store
  | none => Function.update store sessionId (some ⟨[], useDualMode⟩)

/-- `/api/session/clear` (`server.ts` 223-227): `sessions.delete(sessionId)`. -/
def clearSession (store : SessionStore) (sessionId : String) : SessionStore :=
  Function.update store sessionId none

/-! ## Claim theorems -/

/-- **C1.**  For every stream of tool-call fragments with monotonically
non-decreasing indices, the accumulator's finalized `ToolCall` for each index
equals the one obtained from a single unfragmented call: the id is the last
id supplied by any fragment for that index (defaulting to empty if none —
`hval` pins down "supplied" as carrying a nonempty id, which is exactly the
JavaScript truthiness test `if (toolCallDelta.id)` the code applies), and the
name and arguments strings are the concatenations, in arrival order, of all
name fragments and arguments fragments for that index. -/
theorem accumulator_merges_fragments (ds : List ToolCallDelta) (i : Nat)
    (hmono : IndexMonotone ds)
    (hval : ∀ d ∈ ds, d.id ≠ some "")
    (hocc : fragsAt ds i ≠ []) :
    finalCallAt ds i = some ⟨lastIdAt ds i, nameAt i ds, argsAt i ds⟩ ∧
    finalCallAt ds i =
      finalCallAt [⟨i, some (lastIdAt ds i), some (nameAt i ds), some (argsAt i ds)⟩] i := by
  have h1 := finalCallAt_eq ds i hval
  rw [if_neg hocc] at h1
  exact ⟨h1, by rw [h1, finalCallAt_single]⟩

/-- A fragmented `list_files` call: the name arrives in two pieces, the
arguments in two pieces, and the id only in the second chunk. -/
def c1frags : List ToolCallDelta :=
  [⟨0, none, some "list_", some "\x7b"⟩,
   ⟨0, some "call-7", some "files", some "\x7d"⟩]

/-- Witness for C1 at `c1frags`. -/
theorem accumulator_merges_fragments_witness :
    IndexMonotone c1frags ∧ (∀ d ∈ c1frags, d.id ≠ some "") ∧
    fragsAt c1frags 0 ≠ [] ∧
    (finalCallAt c1frags 0 = some ⟨"call-7", "list_files", "\x7b\x7d"⟩ ∧
     finalCallAt c1frags 0 =
       finalCallAt [⟨0, some "call-7", some "list_files", some "\x7b\x7d"⟩] 0) := by
  refine ⟨by decide, by decide, by decide, ?_⟩
  exact accumulator_merges_fragments c1frags 0 (by decide) (by decide) (by decide)

/-- **C2.**  The fallback extractor runs only when the accumulator produced
zero structured tool calls and the assembled text is nonempty (first two
conjuncts: with native calls present, or with empty text, the finalized list
is the native list and the extractor contributes nothing); and its two
patterns are exclusive in order: if the fenced-code-block pattern yields at
least one valid (JSON-validated) tool call, the inline pattern's results are
never consulted, and only when the code-block pattern yields no tool call is
the inline pattern tried. -/
theorem fallback_gating_and_exclusivity :
    (∀ (text : String) (s : AccState), s.len ≠ 0 →
      finalizeRound text s = nativeCalls s) ∧
    (∀ s : AccState, finalizeRound "" s = nativeCalls s) ∧
    (∀ content : String, validated (scanBlocks content.data) ≠ [] →
      parseTextToolCalls content = validated (scanBlocks content.data)) ∧
    (∀ content : String, validated (scanBlocks content.data) = [] →
      parseTextToolCalls content = validated (scanInline content.data)) := by
  refine ⟨?_, ?_, ?_, ?_⟩
  · intro text s h
    rw [finalizeRound, if_neg]
    simp [h]
  · intro s
    rw [finalizeRound, if_neg]
    simp
  · intro content h
    rw [parseTextToolCalls, if_neg]
    simpa [List.length_eq_zero] using h
  · intro content h
    rw [parseTextToolCalls, if_pos]
    simpa [List.length_eq_zero] using h

/-- A text carrying a fenced block the code-block pattern matches with valid
JSON — the block's outer closing brace is missing, which is precisely the
shape whose final capture validates — followed by a bare inline call that the
inline pattern alone would extract. -/
def c2text : String :=
  "```json\n\x7b\"name\": \"list_files\", \"arguments\": \x7b\"dir_path\": \".\"\x7d\n```\nalso \x7b\"name\": \"read_file\", \"arguments\": \x7b\"file_path\": \"x\"\x7d\x7d"

set_option maxRecDepth 100000 in
/-- Witness for C2 at `c2text`: the block pattern yields one valid call, so
the extractor returns exactly it, and the inline call (`read_file`) that the
inline pattern would find is not in the output. -/
theorem fallback_gating_and_exclusivity_witness :
    validated (scanBlocks c2text.data) ≠ [] ∧
    parseTextToolCalls c2text = validated (scanBlocks c2text.data) ∧
    parseTextToolCalls c2text =
      [⟨"text-tool-0", "list_files", "\x7b\"dir_path\": \".\"\x7d"⟩] ∧
    scanInline c2text.data = [("read_file", "\x7b\"file_path\": \"x\"\x7d")] ∧
    ∀ tc ∈ parseTextToolCalls c2text, tc.name ≠ "read_file" := by
  refine ⟨by decide, fallback_gating_and_exclusivity.2.2.1 c2text (by decide),
    by decide, by decide, by decide⟩

/-- Unfolding one dispatching round of the server turn loop: after a round
with a nonempty finalized tool-call list, the engine issues the next model
request carrying the history extended by the assistant message and one tool
message per dispatched call. -/
theorem processSingleModeChat_round (env : ToolEnv) (auto : Bool)
    (resp : ModelResponse) (rest : List ModelResponse)
    (history : List ChatMessage) (s : AccState)
    (hacc : accumulate (respDeltas resp) = some s)
    (hne : finalizeRound (respText resp) s ≠ []) :
    processSingleModeChat env auto (resp :: rest) history =
      processSingleModeChat env auto rest
        ((history ++ [assistantMsgOf (respText resp) (finalizeRound (respText resp) s)])
          ++ dispatchAllServer env (finalizeRound (respText resp) s)) := by
  rw [processSingleModeChat, hacc]
  simp only []
  rw [if_pos]
  exact List.length_pos.mpr hne

/-- A neutral environment for witnesses: every tool returns an empty string
and every confirmation is granted. -/
def envWitness : ToolEnv :=
  ⟨fun _ => .ok "", fun _ => .ok "", fun _ => .ok "", fun _ => .ok "",
   fun _ => true⟩

/-- **C3.**  For every finalized tool call handed to the dispatcher, exactly
one tool-role message is appended to history regardless of outcome; an
unparsable arguments string yields the fixed parse-failure result without
resolving the tool name (the outcome is independent of every collaborator);
a name outside the four builtins yields the unknown-tool result; an
exception from the callable yields an `Error: <message>` result; and after a
round that dispatched tool calls the turn loop issues the next model request
rather than terminating. -/
theorem dispatcher_transcript_consistency :
    (∀ (env : ToolEnv) (tc : StreamedToolCall),
      ∃ m, (executeToolAndSendEvents env tc).2 = [m] ∧ m.role = .tool ∧
        m.tool_call_id = some tc.id) ∧
    (∀ (env env' : ToolEnv) (tc : StreamedToolCall),
      Json.parse tc.arguments = none →
      (executeToolAndSendEvents env tc).2 =
        [⟨.tool, some "Error: Failed to parse tool arguments", [], some tc.id⟩] ∧
      executeToolAndSendEvents env tc = executeToolAndSendEvents env' tc) ∧
    (∀ (env : ToolEnv) (tc : StreamedToolCall) (args : Json),
      Json.parse tc.arguments = some args →
      tc.name ∉ ["list_files", "read_file", "write_file", "run_shell_command"] →
      (executeToolAndSendEvents env tc).2 =
        [⟨.tool, some "Error: Unknown tool function", [], some tc.id⟩]) ∧
    (∀ (env : ToolEnv) (tc : StreamedToolCall) (args : Json) (msg : String),
      Json.parse tc.arguments = some args →
      dispatchServer env tc.name args = .exn msg →
      (executeToolAndSendEvents env tc).2 =
        [⟨.tool, some ("Error: " ++ msg), [], some tc.id⟩]) ∧
    (∀ (env : ToolEnv) (auto : Bool) (resp : ModelResponse)
       (rest : List ModelResponse) (history : List ChatMessage) (s : AccState),
      accumulate (respDeltas resp) = some s →
      finalizeRound (respText resp) s ≠ [] →
      processSingleModeChat env auto (resp :: rest) history =
        processSingleModeChat env auto rest
          ((history ++ [assistantMsgOf (respText resp) (finalizeRound (respText resp) s)])
            ++ dispatchAllServer env (finalizeRound (respText resp) s))) := by
  refine ⟨?_, ?_, ?_, ?_, ?_⟩
  · intro env tc
    cases hp : Json.parse tc.arguments with
    | none =>
      simp only [executeToolAndSendEvents, hp]
      exact ⟨_, rfl, rfl, rfl⟩
    | some args =>
      cases hd : dispatchServer env tc.name args with
      | ok r =>
        simp only [executeToolAndSendEvents, hp, hd]
        exact ⟨_, rfl, rfl, rfl⟩
      | exn m =>
        simp only [executeToolAndSendEvents, hp, hd]
        exact ⟨_, rfl, rfl, rfl⟩
  · intro env env' tc hp
    constructor
    · simp only [executeToolAndSendEvents, hp]
    · simp only [executeToolAndSendEvents, hp]
  · intro env tc args hp hname
    simp only [List.mem_cons, List.not_mem_nil, or_false, not_or] at hname
    obtain ⟨h1, h2, h3, h4⟩ := hname
    have hd : dispatchServer env tc.name args = .ok "Error: Unknown tool function" := by
      rw [dispatchServer, if_neg h1, if_neg h2, if_neg h3, if_neg h4]
    simp only [executeToolAndSendEvents, hp, hd]
  · intro env tc args msg hp hd
    simp only [executeToolAndSendEvents, hp, hd]
  · intro env auto resp rest history s hacc hne
    exact processSingleModeChat_round env auto resp rest history s hacc hne

/-- Witness for C3: a parse failure and an unknown tool, each appending
exactly one tool message with the documented content. -/
theorem dispatcher_transcript_consistency_witness :
    Json.parse "oops" = none ∧
    (executeToolAndSendEvents envWitness ⟨"c-1", "list_files", "oops"⟩).2 =
      [⟨.tool, some "Error: Failed to parse tool arguments", [], some "c-1"⟩] ∧
    Json.parse "\x7b\x7d" = some (.obj []) ∧
    (executeToolAndSendEvents envWitness ⟨"c-2", "frobnicate", "\x7b\x7d"⟩).2 =
      [⟨.tool, some "Error: Unknown tool function", [], some "c-2"⟩] := by
  refine ⟨rfl, ?_, rfl, ?_⟩
  · exact (dispatcher_transcript_consistency.2.1 envWitness envWitness
      ⟨"c-1", "list_files", "oops"⟩ rfl).1
  · exact dispatcher_transcript_consistency.2.2.1 envWitness
      ⟨"c-2", "frobnicate", "\x7b\x7d"⟩ (.obj []) rfl (by decide)

/-- **C7 (amended).**  For every dispatched tool call whose arguments parse,
the observer receives a `tool_start` event first and then exactly one of a
`tool_result` or a `tool_error` event; when the arguments string fails to
parse, however, the observer receives exactly one `tool_error` event and no
start event at all. -/
theorem observer_event_order :
    (∀ (env : ToolEnv) (tc : StreamedToolCall) (args : Json),
      Json.parse tc.arguments = some args →
      ∃ e, (executeToolAndSendEvents env tc).1 = [.tool_start tc.name args, e] ∧
        ((∃ r, e = SseEvent.tool_result tc.name r) ∨
         (∃ m, e = SseEvent.tool_error tc.name m))) ∧
    (∀ (env : ToolEnv) (tc : StreamedToolCall),
      Json.parse tc.arguments = none →
      (executeToolAndSendEvents env tc).1 =
        [.tool_error tc.name "Failed to parse arguments"] ∧
      (executeToolAndSendEvents env tc).1.any SseEvent.isToolStart = false) := by
  constructor
  · intro env tc args hp
    cases hd : dispatchServer env tc.name args with
    | ok r =>
      refine ⟨_, ?_, .inl ⟨truncateForDisplay r, rfl⟩⟩
      simp only [executeToolAndSendEvents, hp, hd]
    | exn m =>
      refine ⟨_, ?_, .inr ⟨m, rfl⟩⟩
      simp only [executeToolAndSendEvents, hp, hd]
  · intro env tc hp
    constructor
    · simp only [executeToolAndSendEvents, hp]
    · simp only [executeToolAndSendEvents, hp, List.any_cons, List.any_nil,
        SseEvent.isToolStart, Bool.or_false]

/-- C7 counterexample: a tool call whose arguments fail to parse produces an
error event only — the observer never receives a start event, so "a start
event first, ... including the case where the arguments string fails to
parse" is false on the code. -/
theorem observer_no_start_on_parse_failure :
    (executeToolAndSendEvents envWitness ⟨"c-9", "read_file", "not json"⟩).1 =
      [.tool_error "read_file" "Failed to parse arguments"] ∧
    (executeToolAndSendEvents envWitness
        ⟨"c-9", "read_file", "not json"⟩).1.any SseEvent.isToolStart = false := by
  exact ⟨rfl, rfl⟩

/-- Witness for C7 at a parsing call: start, then exactly one result event. -/
theorem observer_event_order_witness :
    Json.parse "\x7b\x7d" = some (.obj []) ∧
    (∃ e, (executeToolAndSendEvents envWitness ⟨"c-5", "read_file", "\x7b\x7d"⟩).1 =
      [.tool_start "read_file" (.obj []), e] ∧
      ((∃ r, e = SseEvent.tool_result "read_file" r) ∨
       (∃ m, e = SseEvent.tool_error "read_file" m))) := by
  exact ⟨rfl, observer_event_order.1 envWitness ⟨"c-5", "read_file", "\x7b\x7d"⟩
    (.obj []) rfl⟩

/-- Unfolding one dispatching round of the CLI turn loop. -/
theorem processSingleModelTurn_round (env : ToolEnv) (resp : ModelResponse)
    (rest : List ModelResponse) (history : List ChatMessage) (s : AccState)
    (hacc : accumulate (respDeltas resp) = some s)
    (hne : finalizeRound (respText resp) s ≠ []) :
    processSingleModelTurn env (resp :: rest) history =
      processSingleModelTurn env rest
        ((history ++ [assistantMsgOf (respText resp) (finalizeRound (respText resp) s)])
          ++ dispatchAllCLI env (finalizeRound (respText resp) s)) := by
  rw [processSingleModelTurn, hacc]
  simp only []
  rw [if_pos]
  exact List.length_pos.mpr hne

/-- The web server's turn outcome does not depend on `autoApprove` at all:
the parameter is accepted and never read. -/
theorem processSingleModeChat_autoApprove (env : ToolEnv)
    (script : List ModelResponse) :
    ∀ (history : List ChatMessage) (a b : Bool),
      processSingleModeChat env a script history =
        processSingleModeChat env b script history := by
  induction script with
  | nil => intro history a b; rfl
  | cons resp rest ih =>
    intro history a b
    rw [processSingleModeChat, processSingleModeChat]
    cases accumulate (respDeltas resp) with
    | none => rfl
    | some s =>
      simp only []
      by_cases h : (finalizeRound (respText resp) s).length > 0
      · rw [if_pos h, if_pos h]
        exact ih _ a b
      · rw [if_neg h, if_neg h]

/-- **C5 (amended).**  In the CLI agent, approval is required exactly for
`write_file` and `run_shell_command`; for those, an explicit allow/deny
decision is obtained from the `confirm` collaborator before the tool runs,
and a denial yields the ordinary tool message
"Tool execution denied by user." without invoking any callable (the outcome
is then independent of the tool oracles); for the other tools no
confirmation is consulted; after dispatch the CLI turn loop issues the next
model request.  The web server, by contrast, accepts a per-turn
`autoApprove` flag but never reads it: its turn outcome is independent of
the flag, and no approval decision is ever obtained there. -/
theorem approval_gate :
    (∀ n : String, requiresApproval n = true ↔
      (n = "write_file" ∨ n = "run_shell_command")) ∧
    (∀ (env : ToolEnv) (tc : StreamedToolCall) (args : Json),
      Json.parse tc.arguments = some args →
      requiresApproval tc.name = true → env.confirm tc.name = false →
      executeToolCall env tc =
        [⟨.tool, some "Tool execution denied by user.", [], some tc.id⟩] ∧
      (∀ env' : ToolEnv, env'.confirm = env.confirm →
        executeToolCall env' tc = executeToolCall env tc)) ∧
    (∀ (env : ToolEnv) (tc : StreamedToolCall) (c : String → Bool),
      requiresApproval tc.name = false →
      executeToolCall { env with confirm := c } tc = executeToolCall env tc) ∧
    (∀ (env : ToolEnv) (resp : ModelResponse) (rest : List ModelResponse)
       (history : List ChatMessage) (s : AccState),
      accumulate (respDeltas resp) = some s →
      finalizeRound (respText resp) s ≠ [] →
      processSingleModelTurn env (resp :: rest) history =
        processSingleModelTurn env rest
          ((history ++ [assistantMsgOf (respText resp) (finalizeRound (respText resp) s)])
            ++ dispatchAllCLI env (finalizeRound (respText resp) s))) ∧
    (∀ (env : ToolEnv) (script : List ModelResponse)
       (history : List ChatMessage) (a b : Bool),
      processSingleModeChat env a script history =
        processSingleModeChat env b script history) := by
  refine ⟨?_, ?_, ?_, ?_, ?_⟩
  · intro n
    simp [requiresApproval]
  · intro env tc args hp hreq hc
    constructor
    · simp [executeToolCall, hp, hreq, hc]
    · intro env' hce
      have hc' : env'.confirm tc.name = false := by rw [congrFun hce tc.name, hc]
      simp [executeToolCall, hp, hreq, hc, hc']
  · intro env tc c hreq
    cases hp : Json.parse tc.arguments with
    | none => simp [executeToolCall, hp]
    | some args => simp [executeToolCall, hp, hreq, dispatchCLI]
  · intro env resp rest history s hacc hne
    exact processSingleModelTurn_round env resp rest history s hacc hne
  · intro env script history a b
    exact processSingleModeChat_autoApprove env script history a b

/-- A recording environment whose confirm collaborator denies everything. -/
def envRecord : ToolEnv :=
  ⟨fun _ => .ok "LF", fun _ => .ok "RF", fun _ => .ok "WROTE package.json",
   fun _ => .ok "SH", fun _ => false⟩

/-- A response whose only delta is a native `write_file` tool call. -/
def respWrite : ModelResponse :=
  ⟨[⟨none, [⟨0, some "w-1", some "write_file", some "\x7b\x7d"⟩]⟩]⟩

/-- A response carrying only text, no tool calls. -/
def respDone : ModelResponse := ⟨[⟨some "All done!", []⟩]⟩

/-- C5 counterexample: in the web server, with `autoApprove = false` and a
confirm collaborator that denies everything, a `write_file` call still
executes — its oracle result lands in history — identically to
`autoApprove = true`.  No allow/deny decision is obtained before the tool
runs, refuting the claim as stated. -/
theorem server_executes_without_approval :
    processSingleModeChat envRecord false [respWrite, respDone] [] =
      processSingleModeChat envRecord true [respWrite, respDone] [] ∧
    processSingleModeChat envRecord false [respWrite, respDone] [] =
      some [assistantMsgOf "" [⟨"w-1", "write_file", "\x7b\x7d"⟩],
            ⟨.tool, some "WROTE package.json", [], some "w-1"⟩,
            assistantMsgOf "All done!" []] := by
  exact ⟨rfl, rfl⟩

/-- Witness for C5: a concrete denied `write_file` in the CLI. -/
theorem approval_gate_witness :
    Json.parse "\x7b\x7d" = some (.obj []) ∧
    requiresApproval "write_file" = true ∧
    envRecord.confirm "write_file" = false ∧
    executeToolCall envRecord ⟨"w-2", "write_file", "\x7b\x7d"⟩ =
      [⟨.tool, some "Tool execution denied by user.", [], some "w-2"⟩] := by
  exact ⟨rfl, rfl, rfl,
    (approval_gate.2.1 envRecord ⟨"w-2", "write_file", "\x7b\x7d"⟩
      (.obj []) rfl rfl rfl).1⟩

/-- **C6 (amended).**  A session is created lazily on the first request
carrying its id (and an existing entry is left untouched); an explicit clear
request removes the session entry from the store entirely
(`sessions.delete(sessionId)`), so the next request carrying the id
recreates the session with empty history — the history is thereby reset,
but the identifier does not remain in the store. -/
theorem session_lazy_create_and_clear :
    (∀ (store : SessionStore) (id : String) (d : Bool), store id = none →
      ensureSession store id d id = some ⟨[], d⟩ ∧
      ∀ j, j ≠ id → ensureSession store id d j = store j) ∧
    (∀ (store : SessionStore) (id : String) (d : Bool) (sd : SessionData),
      store id = some sd → ensureSession store id d = store) ∧
    (∀ (store : SessionStore) (id : String), clearSession store id id = none) ∧
    (∀ (store : SessionStore) (id : String) (d : Bool),
      ensureSession (clearSession store id) id d id = some ⟨[], d⟩) := by
  refine ⟨?_, ?_, ?_, ?_⟩
  · intro store id d h
    constructor
    · simp [ensureSession, h, Function.update]
    · intro j hj
      simp [ensureSession, h, Function.update, hj]
  · intro store id d sd h
    simp [ensureSession, h]
  · intro store id
    simp [clearSession, Function.update]
  · intro store id d
    simp [ensureSession, clearSession, Function.update]

/-- An empty store, then one request for "default". -/
def storeOne : SessionStore := ensureSession (fun _ => none) "default" true

/-- C6 counterexample: after an explicit clear, the identifier is gone from
the session store — `sessions.delete` removes the entry rather than
resetting its history in place, refuting "the identifier is not removed
from the session store". -/
theorem clear_removes_identifier :
    storeOne "default" = some ⟨[], true⟩ ∧
    clearSession storeOne "default" "default" = none := by
  constructor
  · simp [storeOne, ensureSession, Function.update]
  · simp [clearSession, Function.update]

/-- Witness for C6: lazy creation and clear-then-recreate on a concrete
store. -/
theorem session_lazy_create_and_clear_witness :
    ((fun _ => none) : SessionStore) "default" = none ∧
    ensureSession (fun _ => none) "default" true "default" = some ⟨[], true⟩ ∧
    ensureSession (clearSession storeOne "default") "default" false "default" =
      some ⟨[], false⟩ := by
  refine ⟨rfl, ?_, ?_⟩
  · exact (session_lazy_create_and_clear.1 (fun _ => none) "default" true rfl).1
  · exact session_lazy_create_and_clear.2.2.2 storeOne "default" false

/-- **C8.**  A turn in which the finalized tool-call list (native or
fallback-derived) is empty terminates: the engine returns successfully (its
`Done` state — `some`, as opposed to the `none` of a transport failure),
with exactly one assistant message appended after the user message, whose
content is the assembled text of the stream — the turn's final answer. -/
theorem no_tool_call_turn_terminates (env : ToolEnv) (auto : Bool)
    (history : List ChatMessage) (m : String) (resp : ModelResponse)
    (s : AccState) (hacc : accumulate (respDeltas resp) = some s)
    (hempty : finalizeRound (respText resp) s = []) :
    processSingleModeChat env auto [resp] (history ++ [mkUser m]) =
      some (history ++ [mkUser m] ++ [assistantMsgOf (respText resp) []]) ∧
    (processSingleModeChat env auto [resp] (history ++ [mkUser m])).isSome = true := by
  have h : processSingleModeChat env auto [resp] (history ++ [mkUser m]) =
      some (history ++ [mkUser m] ++ [assistantMsgOf (respText resp) []]) := by
    rw [processSingleModeChat, hacc]
    simp only [hempty]
    rw [if_neg]
    simp
  exact ⟨h, by rw [h]; rfl⟩

/-- Witness for C8: a plain-text final answer on a concrete one-response
script. -/
theorem no_tool_call_turn_terminates_witness :
    accumulate (respDeltas respDone) = some accInit ∧
    finalizeRound (respText respDone) accInit = [] ∧
    processSingleModeChat envWitness true [respDone] ([] ++ [mkUser "hi"]) =
      some ([] ++ [mkUser "hi"] ++ [assistantMsgOf "All done!" []]) := by
  refine ⟨rfl, by decide, ?_⟩
  exact (no_tool_call_turn_terminates envWitness true [] "hi" respDone accInit
    rfl (by decide)).1

/-- The environment of the C9 scenario: `run_shell_command` resolves with
what `runShellCommand` returns when `exec` reports a killed (timed-out)
child. -/
def envTimeout : ToolEnv :=
  ⟨fun _ => .ok "LF", fun _ => .ok "RF", fun _ => .ok "WROTE",
   fun _ => .ok (runShellCommand (.failure true "timeout" "")), fun _ => true⟩

/-- A response whose only delta is a native `run_shell_command` call. -/
def respShell : ModelResponse :=
  ⟨[⟨none, [⟨0, some "sh-1", some "run_shell_command", some "\x7b\x7d"⟩]⟩]⟩

/-- **C9.**  `run_shell_command` is bounded by the fixed 30000 ms timeout;
when the exec callback reports a killed child (the timeout fired), the tool
returns the ordinary string "Error: Command timed out after 30 seconds"
rather than throwing (`runShellCommand` is total), that string is recorded
as a tool-result message in history, and the turn loop proceeds to the next
model request with it. -/
theorem shell_timeout_ordinary_result :
    SHELL_TIMEOUT_MS = 30000 ∧
    (∀ message stderr : String,
      runShellCommand (.failure true message stderr) =
        "Error: Command timed out after 30 seconds") ∧
    (∀ (rest : List ModelResponse) (history : List ChatMessage),
      processSingleModeChat envTimeout true (respShell :: rest) history =
        processSingleModeChat envTimeout true rest
          ((history ++ [assistantMsgOf "" [⟨"sh-1", "run_shell_command", "\x7b\x7d"⟩]]) ++
           [⟨.tool, some "Error: Command timed out after 30 seconds", [], some "sh-1"⟩])) := by
  refine ⟨rfl, ?_, ?_⟩
  · intro message stderr
    rfl
  · intro rest history
    rfl

theorem takeClass1_spec (p : Char → Bool) (cs run rest : List Char)
    (h : takeClass1 p cs = some (run, rest)) :
    run ≠ [] ∧ ∀ c ∈ run, p c := by
  unfold takeClass1 at h
  split at h
  · exact absurd h (by simp)
  next hr =>
    injection h with h
    injection h with h1 h2
    subst h1
    exact ⟨hr, fun c hc => List.mem_takeWhile_imp hc⟩

/-- Every successful inline match captures arguments of the shape
`{` + nonempty brace-free body + `}`: the capture `(\{[^}]+\})` stops at the
first closing brace. -/
theorem matchInlineAt_args (cs : List Char) (nm ag : String) (rest : List Char)
    (h : matchInlineAt cs = some (nm, ag, rest)) :
    ∃ body : List Char, ag = "\x7b" ++ String.mk body ++ "\x7d" ∧ body ≠ [] ∧
      ∀ c ∈ body, c ≠ '\x7d' := by
  simp only [matchInlineAt, Option.bind_eq_some, Option.pure_def,
    Option.some.injEq, bind, Prod.exists] at h
  obtain ⟨a1, -, a2, -, a3, -, nmRun, nrest, -, a5, -, a6, -, a7, -, a8, -, a9, -,
    body, brest, h10, a11, -, a12, -, heq⟩ := h
  injection heq with e1 heq2
  injection heq2 with e2 e3
  refine ⟨body, e2.symm, (takeClass1_spec _ _ _ _ h10).1, ?_⟩
  intro c hc
  exact of_decide_eq_true ((takeClass1_spec _ _ _ _ h10).2 c hc)

/-- The capture-shape property transfers to every match the `/g` scan of the
inline pattern emits. -/
theorem scanFrom_inline_args (fuel : Nat) (cs : List Char) (nm ag : String)
    (h : (nm, ag) ∈ scanFrom matchInlineAt fuel cs) :
    ∃ body : List Char, ag = "\x7b" ++ String.mk body ++ "\x7d" ∧ body ≠ [] ∧
      ∀ c ∈ body, c ≠ '\x7d' := by
  induction fuel generalizing cs with
  | zero => exact absurd h (by simp [scanFrom])
  | succ n ih =>
    cases cs with
    | nil => exact absurd h (by simp [scanFrom])
    | cons c rest =>
      rw [scanFrom] at h
      cases hm : matchInlineAt (c :: rest) with
      | none =>
        rw [hm] at h
        exact ih _ h
      | some t =>
        obtain ⟨tn, ta, tr⟩ := t
        rw [hm] at h
        rcases List.mem_cons.mp h with heq | hmem
        · injection heq with e1 e2
          subst e2
          exact matchInlineAt_args _ _ _ _ hm
        · exact ih _ hmem

/-- A string of shape `{` + brace-free body + `}` contains exactly one `}`. -/
theorem braceCount_of_shape (body : List Char)
    (hb : ∀ c ∈ body, c ≠ '\x7d') :
    ("\x7b" ++ String.mk body ++ "\x7d").data.count '\x7d' = 1 := by
  rw [String.data_append, String.data_append]
  rw [List.count_append, List.count_append]
  have h0 : body.count '\x7d' = 0 :=
    List.count_eq_zero.mpr (fun hmem => (hb _ hmem) rfl)
  simp [h0, List.count_cons]

theorem validated_foldl_mem (ms : List (String × String))
    (acc : List StreamedToolCall × Nat) (tc : StreamedToolCall)
    (h : tc ∈ (ms.foldl validatedStep acc).1) :
    tc ∈ acc.1 ∨ (tc.name, tc.arguments) ∈ ms := by
  induction ms generalizing acc with
  | nil => exact .inl h
  | cons m ms ih =>
    rcases ih (validatedStep acc m) h with hin | hin
    · rw [validatedStep] at hin
      cases hp : Json.parse m.2 with
      | none =>
        rw [hp] at hin
        exact .inl hin
      | some v =>
        rw [hp] at hin
        rcases List.mem_append.mp hin with h1 | h1
        · exact .inl h1
        · rw [List.mem_singleton] at h1
          subst h1
          exact .inr (by simp)
    · exact .inr (List.mem_cons_of_mem _ hin)

/-- **C10.**  The inline-JSON fallback pattern only extracts flat argument
objects: whenever the code-block pattern contributed nothing (so the inline
pattern is the one consulted), every synthesized call's arguments string
contains exactly one `}` — the capture `(\{[^}]+\})` stops at the first
closing brace — so no synthesized call can carry a nested-object arguments
text, which must contain at least two `}` (one for the nested object, one
closing the arguments object); a truncated nested candidate either fails
JSON validation or the bare object is never matched whole. -/
theorem inline_fallback_flat_only (content : String)
    (hblocks : validated (scanBlocks content.data) = [])
    (tc : StreamedToolCall) (htc : tc ∈ parseTextToolCalls content) :
    tc.arguments.data.count '\x7d' = 1 ∧
    ∀ argText : String, 2 ≤ argText.data.count '\x7d' →
      tc.arguments ≠ argText := by
  rw [parseTextToolCalls, if_pos (by simpa [List.length_eq_zero] using hblocks)] at htc
  have hmem := validated_foldl_mem _ _ _ htc
  rcases hmem with hin | hin
  · exact absurd hin (by simp)
  · obtain ⟨body, hshape, -, hfree⟩ :=
      scanFrom_inline_args (content.data.length + 1) content.data _ _ hin
    have hcount : tc.arguments.data.count '\x7d' = 1 := by
      rw [hshape]
      exact braceCount_of_shape body hfree
    refine ⟨hcount, ?_⟩
    intro argText hge heq
    rw [heq] at hcount
    omega

/-- A flat inline call in plain text — extracted — and a nested-arguments
inline object, for which the extractor synthesizes nothing. -/
def c10flat : String :=
  "Use \x7b\"name\": \"read_file\", \"arguments\": \x7b\"file_path\": \"a\"\x7d\x7d now"

def c10nested : String :=
  "\x7b\"name\": \"write_file\", \"arguments\": \x7b\"a\": \x7b\"b\": 1\x7d\x7d\x7d"

set_option maxRecDepth 100000 in
/-- Witness for C10: the flat inline call is synthesized with a single `}` in
its arguments; the nested-arguments text yields no tool call at all. -/
theorem inline_fallback_flat_only_witness :
    validated (scanBlocks c10flat.data) = [] ∧
    parseTextToolCalls c10flat =
      [⟨"text-tool-0", "read_file", "\x7b\"file_path\": \"a\"\x7d"⟩] ∧
    (⟨"text-tool-0", "read_file", "\x7b\"file_path\": \"a\"\x7d"⟩ :
        StreamedToolCall).arguments.data.count '\x7d' = 1 ∧
    parseTextToolCalls c10nested = [] := by
  refine ⟨by decide, by decide, ?_, by decide⟩
  exact (inline_fallback_flat_only c10flat (by decide)
    ⟨"text-tool-0", "read_file", "\x7b\"file_path\": \"a\"\x7d"⟩ (by decide)).1

theorem executeToolCall_roles (env : ToolEnv) (tc : StreamedToolCall) :
    ∀ m ∈ executeToolCall env tc, m.role = .tool := by
  intro m hm
  cases hp : Json.parse tc.arguments with
  | none =>
    simp only [executeToolCall, hp, List.mem_singleton] at hm
    subst hm
    rfl
  | some args =>
    simp only [executeToolCall, hp, List.mem_singleton] at hm
    subst hm
    rfl

theorem dispatchAllCLI_roles (env : ToolEnv) (calls : List StreamedToolCall) :
    ∀ m ∈ dispatchAllCLI env calls, m.role = .tool := by
  intro m hm
  rw [dispatchAllCLI] at hm
  simp only [List.mem_flatten, List.mem_map] at hm
  obtain ⟨l, ⟨tc, htc, rfl⟩, hml⟩ := hm
  exact executeToolCall_roles env tc m hml

/-- The CLI executing phase only ever appends to the history it is given,
and everything it appends is an assistant or tool message. -/
theorem processExecutingPhase_suffix (env : ToolEnv)
    (script : List ModelResponse) :
    ∀ history : List ChatMessage, ∃ suffix,
      processExecutingPhase env script history = history ++ suffix ∧
      ∀ m ∈ suffix, m.role = .assistant ∨ m.role = .tool := by
  induction script with
  | nil =>
    intro history
    exact ⟨[], by simp [processExecutingPhase], by simp⟩
  | cons resp rest ih =>
    intro history
    rw [processExecutingPhase]
    cases hacc : accumulate (respDeltas resp) with
    | none => exact ⟨[], by simp, by simp⟩
    | some s =>
      simp only []
      by_cases h : (finalizeRound (respText resp) s).length > 0
      · rw [if_pos h]
        obtain ⟨suffix, heq, hroles⟩ :=
          ih ((history ++ [assistantMsgOf (respText resp) (finalizeRound (respText resp) s)])
            ++ dispatchAllCLI env (finalizeRound (respText resp) s))
        refine ⟨[assistantMsgOf (respText resp) (finalizeRound (respText resp) s)]
          ++ dispatchAllCLI env (finalizeRound (respText resp) s) ++ suffix, ?_, ?_⟩
        · rw [heq]
          simp [List.append_assoc]
        · intro m hm
          rcases List.mem_append.mp hm with hm | hm
          · rcases List.mem_append.mp hm with hm | hm
            · rw [List.mem_singleton] at hm
              subst hm
              exact .inl rfl
            · exact .inr (dispatchAllCLI_roles env _ m hm)
          · exact hroles m hm
      · rw [if_neg h]
        refine ⟨[assistantMsgOf (respText resp) (finalizeRound (respText resp) s)], rfl, ?_⟩
        intro m hm
        rw [List.mem_singleton] at hm
        subst hm
        exact .inl rfl

/-- One CLI dual-phase turn: seed the system prompt iff the persistent
history is empty, append the enhanced prompt as a user message, then append
only assistant/tool round messages. -/
theorem processDualModelTurn_suffix (env : ToolEnv) (e : String)
    (script : List ModelResponse) (hist : List ChatMessage) :
    ∃ suffix, processDualModelTurn env e script hist =
      ((if hist.length = 0 then hist ++ [mkSystem EXECUTING_SYSTEM_PROMPT] else hist)
        ++ [mkUser e]) ++ suffix ∧
      ∀ m ∈ suffix, m.role = .assistant ∨ m.role = .tool := by
  obtain ⟨suffix, heq, hroles⟩ := processExecutingPhase_suffix env script
    ((if hist.length = 0 then hist ++ [mkSystem EXECUTING_SYSTEM_PROMPT] else hist)
      ++ [mkUser e])
  exact ⟨suffix, heq, hroles⟩

/-- The executor-history invariant: the system prompt sits at position 0 and
is the only system-role message. -/
def SysOnceAtHead (h : List ChatMessage) : Prop :=
  h.head? = some (mkSystem EXECUTING_SYSTEM_PROMPT) ∧
  h.countP (fun m => decide (m.role = Role.system)) = 1

theorem dual_turn_base (env : ToolEnv) (e : String)
    (script : List ModelResponse) :
    SysOnceAtHead (processDualModelTurn env e script []) ∧
    mkUser e ∈ processDualModelTurn env e script [] := by
  obtain ⟨suffix, heq, hroles⟩ := processDualModelTurn_suffix env e script []
  rw [heq]
  simp only [List.length_nil, if_pos rfl, List.nil_append]
  have hsfx : suffix.countP (fun m => decide (m.role = Role.system)) = 0 := by
    rw [List.countP_eq_zero]
    intro m hm
    rcases hroles m hm with h | h <;> simp [h]
  refine ⟨⟨rfl, ?_⟩, by simp⟩
  rw [List.countP_append, hsfx]
  rfl

theorem dual_turn_preserves (env : ToolEnv) (e : String)
    (script : List ModelResponse) (hist : List ChatMessage)
    (h : SysOnceAtHead hist) :
    SysOnceAtHead (processDualModelTurn env e script hist) ∧
    mkUser e ∈ processDualModelTurn env e script hist ∧
    ∀ m ∈ hist, m ∈ processDualModelTurn env e script hist := by
  obtain ⟨hhead, hcount⟩ := h
  have hne : hist.length ≠ 0 := by
    intro h0
    rw [List.length_eq_zero] at h0
    rw [h0] at hhead
    exact Option.noConfusion hhead
  obtain ⟨suffix, heq, hroles⟩ := processDualModelTurn_suffix env e script hist
  rw [if_neg hne] at heq
  rw [heq]
  have hsfx : suffix.countP (fun m => decide (m.role = Role.system)) = 0 := by
    rw [List.countP_eq_zero]
    intro m hm
    rcases hroles m hm with h | h <;> simp [h]
  refine ⟨⟨?_, ?_⟩, by simp, ?_⟩
  · rw [List.append_assoc, List.head?_append, hhead]
    rfl
  · rw [List.countP_append, List.countP_append, hcount, hsfx]
    rfl
  · intro m hm
    exact List.mem_append_left _ (List.mem_append_left _ hm)

theorem dual_fold_invariant (env : ToolEnv)
    (turns : List (String × List ModelResponse)) :
    ∀ hist : List ChatMessage, SysOnceAtHead hist →
      SysOnceAtHead (turns.foldl
        (fun h t => processDualModelTurn env t.1 t.2 h) hist) ∧
      (∀ m ∈ hist, m ∈ turns.foldl
        (fun h t => processDualModelTurn env t.1 t.2 h) hist) ∧
      (∀ t ∈ turns, mkUser t.1 ∈ turns.foldl
        (fun h t => processDualModelTurn env t.1 t.2 h) hist) := by
  induction turns with
  | nil => exact fun hist h => ⟨h, fun m hm => hm, by simp⟩
  | cons t ts ih =>
    intro hist h
    obtain ⟨h1, h2, h3⟩ := dual_turn_preserves env t.1 t.2 hist h
    obtain ⟨g1, g2, g3⟩ := ih (processDualModelTurn env t.1 t.2 hist) h1
    refine ⟨g1, fun m hm => g2 m (h3 m hm), ?_⟩
    intro u hu
    rcases List.mem_cons.mp hu with rfl | hu
    · exact g2 _ h2
    · exact g3 u hu

/-- **C4 (amended).**  In the CLI agent's dual mode the executor history
persists across orchestrator invocations within a session: after any
nonempty sequence of dual-phase turns starting from the empty persistent
history, the executor system prompt appears exactly once, at position 0, and
every turn's enhanced-prompt user message is (cumulatively) in the history —
never a fresh, stateless history per invocation.  The web server's dual
mode does NOT have this property: it rebuilds a fresh two-message executor
history on every invocation (see the counterexample). -/
theorem cli_dual_history_persists (env : ToolEnv)
    (turns : List (String × List ModelResponse)) (hne : turns ≠ []) :
    ((turns.foldl (fun h t => processDualModelTurn env t.1 t.2 h) []).head? =
      some (mkSystem EXECUTING_SYSTEM_PROMPT)) ∧
    ((turns.foldl (fun h t => processDualModelTurn env t.1 t.2 h) []).countP
      (fun m => decide (m.role = Role.system)) = 1) ∧
    ∀ t ∈ turns, mkUser t.1 ∈
      turns.foldl (fun h t => processDualModelTurn env t.1 t.2 h) [] := by
  obtain ⟨t, ts, rfl⟩ := List.exists_cons_of_ne_nil hne
  obtain ⟨hb1, hb2⟩ := dual_turn_base env t.1 t.2
  obtain ⟨g1, g2, g3⟩ :=
    dual_fold_invariant env ts (processDualModelTurn env t.1 t.2 []) hb1
  refine ⟨g1.1, g1.2, ?_⟩
  intro u hu
  rcases List.mem_cons.mp hu with rfl | hu
  · exact g2 _ hb2
  · exact g3 u hu

/-- C4 counterexample: the web server's dual mode receives no session state —
its executor history for an invocation with enhanced prompt "plan two" is
the fresh two-message list whatever any earlier invocation (say with
"plan one") did, and the earlier turn's user message is not in it. -/
theorem server_dual_history_not_persistent :
    processDualModeChat envWitness ["plan two"] [respDone] =
      some [mkSystem EXECUTING_SYSTEM_PROMPT, mkUser "plan two",
            assistantMsgOf "All done!" []] ∧
    mkUser "plan one" ∉
      [mkSystem EXECUTING_SYSTEM_PROMPT, mkUser "plan two",
       assistantMsgOf "All done!" []] ∧
    (serverDualExecHistory "plan two").length = 2 := by
  refine ⟨rfl, by decide, rfl⟩

/-- Witness for C4: two sequential CLI dual-phase turns in one session. -/
theorem cli_dual_history_persists_witness :
    (([("plan one", [respDone]), ("plan two", [respDone])] :
        List (String × List ModelResponse)) ≠ []) ∧
    (([("plan one", [respDone]), ("plan two", [respDone])].foldl
        (fun h t => processDualModelTurn envWitness t.1 t.2 h) []).head? =
      some (mkSystem EXECUTING_SYSTEM_PROMPT)) ∧
    (([("plan one", [respDone]), ("plan two", [respDone])].foldl
        (fun h t => processDualModelTurn envWitness t.1 t.2 h) []).countP
      (fun m => decide (m.role = Role.system)) = 1) ∧
    ∀ t ∈ ([("plan one", [respDone]), ("plan two", [respDone])] :
        List (String × List ModelResponse)),
      mkUser t.1 ∈ [("plan one", [respDone]), ("plan two", [respDone])].foldl
        (fun h t => processDualModelTurn envWitness t.1 t.2 h) [] := by
  have h := cli_dual_history_persists envWitness
    [("plan one", [respDone]), ("plan two", [respDone])] (List.cons_ne_nil _ _)
  exact ⟨List.cons_ne_nil _ _, h.1, h.2.1, h.2.2⟩

end LocalCoder
